import Mathlib

/-!
# HDF5 self-study programs

A shallow embedding of the two programs of the repository

* `parallel-io/hdf5-self-study/hdf5-parallel-exercise/solution/hdf5-parallel-exercise.cpp`
  (every MPI rank writes `rank + 1` copies of its rank into one shared 1-D dataset), and
* `parallel-io/hdf5-self-study/hdf5-write-matrix/hdf5-write-matrix.cpp`
  (rank 0 writes a 4 x 5 integer matrix and attaches one scalar attribute),

together with the properties of the layout arithmetic, of the written data and of the
order in which the HDF5 handles are created and closed.

Conventions of the embedding:

* `int rank, ntasks` are the values delivered by `MPI_Comm_rank` and `MPI_Comm_size`;
  they are never negative, so they are natural numbers here, and a value that fits an
  `int` is at most `INT_MAX`.
* `size_t` and `hsize_t` are 64-bit unsigned: every operation on them is reduced
  modulo `SIZE_MOD = 2^64`.
* `int` arithmetic is 32-bit two's complement (`wrapInt32`).
-/

namespace Hdf5

/-! ## Machine integers -/

/-- Number of values of the 64-bit unsigned types `size_t` and `hsize_t`, that is `2^64`. -/
def SIZE_MOD : Nat := 18446744073709551616

/-- Largest value of the 32-bit signed type `int`, that is `2^31 - 1`. -/
def INT_MAX : Nat := 2147483647

/-- Result of a 32-bit signed operation whose mathematical value is `x`
(two's complement wraparound into `[-2^31, 2^31)`). -/
def wrapInt32 (x : Int) : Int := (x + 2147483648) % 4294967296 - 2147483648

/-- Conversion of an `int` to `size_t` / `hsize_t`: reduction modulo `2^64`. -/
def toSizeT (x : Int) : Nat := (x % 18446744073709551616).toNat

/-! ## Parallel exercise: local buffer and layout (lines 16-17 and 29-46) -/

/-- The `int` expression `rank + 1` of lines 17 and 46. -/
def rankPlusOne (rank : Nat) : Int := wrapInt32 ((rank : Int) + 1)

/-- Local buffer `std::vector<int> data(rank + 1, rank)`: `rank + 1` copies of `rank`. -/
def data (rank : Nat) : List Int := List.replicate (toSizeT (rankPlusOne rank)) (rank : Int)

/-- Value of `dataspaceSize` after
`size_t dataspaceSize = 0; for (size_t i = 0; i < ntasks; i++) dataspaceSize += (i + 1);`. -/
def dataspaceSize (ntasks : Nat) : Nat :=
  (List.range ntasks).foldl (fun acc i => (acc + (i + 1) % SIZE_MOD) % SIZE_MOD) 0

/-- Value of `slabStart` after
`hsize_t slabStart = 0; for (size_t i = 0; i < rank; i++) slabStart += i + 1;`. -/
def slabStart (rank : Nat) : Nat :=
  (List.range rank).foldl (fun acc i => (acc + (i + 1) % SIZE_MOD) % SIZE_MOD) 0

/-- The single entry of `count[] = { (hsize_t) (rank + 1) }`. -/
def count (rank : Nat) : Nat := toSizeT (rankPlusOne rank)

/-! ## The array store -/

/-- Error kinds of the design. -/
inductive Error where
  | ConfigurationError
  | OutOfBoundsError
  | IOError
  | DuplicateNameError
  deriving DecidableEq, Repr

/-- A 1-D region `[offset, offset + extent)` of a declared shape. -/
structure RegionSelection where
  offset : Nat
  extent : Nat
  deriving DecidableEq, Repr

/-- Modelled from the spec: the Hyperslab Selector `select(globalShape, offset, extent)`.
Its code is the HDF5 library call `H5Sselect_hyperslab`, which is not part of the sources;
the programs only test its status. It yields the region `[offset, offset + extent)` when
`offset + extent` is at most the size of the declared shape and fails with
`OutOfBoundsError` otherwise. -/
def select (globalShape offset extent : Nat) : Except Error RegionSelection :=
  if offset + extent ≤ globalShape then
    Except.ok { offset := offset, extent := extent }
  else
    Except.error Error.OutOfBoundsError

/-- A dataspace: the declared shape and the current selection of its flat extent. -/
structure Dataspace where
  dims : List Nat
  selection : RegionSelection
  deriving DecidableEq, Repr

/-- Number of elements of a shape. -/
def shapeSize (dims : List Nat) : Nat := dims.foldl (fun p d => p * d) 1

/-- Modelled from the spec: `H5Screate_simple(n, dims, NULL)` of the HDF5 library (not part
of the sources), create-dataspace(shape); a new dataspace has all its elements selected. -/
def H5Screate_simple (dims : List Nat) : Dataspace :=
  { dims := dims, selection := { offset := 0, extent := shapeSize dims } }

/-- Modelled from the spec: `H5Sselect_hyperslab(space, H5S_SELECT_SET, start, NULL, count, NULL)`
of the HDF5 library (not part of the sources): the returned status is negative exactly when
`select` fails, and a successful call replaces the selection of the dataspace. -/
def H5Sselect_hyperslab (space : Dataspace) (start count : Nat) : Int × Dataspace :=
  match select (shapeSize space.dims) start count with
  | Except.ok sel => (0, { space with selection := sel })
  | Except.error _ => (-1, space)

/-- A dataset of the store: name, declared shape, flat (row-major) element sequence and
the attached scalar integer attributes. -/
structure Dataset where
  name : String
  dims : List Nat
  contents : List Int
  attributes : List (String × Int)
  deriving DecidableEq, Repr

/-- Modelled from the spec: `H5Dcreate(file, name, H5T_NATIVE_INT, space, ...)` of the HDF5
library (not part of the sources), create-dataset(file, name, type, shape); the new dataset
holds the fill value 0 everywhere and has no attribute. -/
def H5Dcreate (name : String) (space : Dataspace) : Dataset :=
  { name := name, dims := space.dims, contents := List.replicate (shapeSize space.dims) 0,
    attributes := [] }

/-- Modelled from the spec: `H5Dwrite(dataset, H5T_NATIVE_INT, memspace, filespace, H5P_DEFAULT, buf)`
of the HDF5 library (not part of the sources), the write of section 4.3 step 5: the elements of
`buf` selected by `memspace` replace the elements of the dataset selected by `filespace`.
The call fails (negative status, dataset unchanged) when the two selections differ in
size or one of them leaves its buffer. -/
def H5Dwrite (dataset : Dataset) (memspace filespace : Dataspace) (buf : List Int) :
    Int × Dataset :=
  let m := memspace.selection
  let f := filespace.selection
  if m.extent = f.extent ∧ m.offset + m.extent ≤ buf.length ∧
      f.offset + f.extent ≤ dataset.contents.length then
    (0, { dataset with
            contents := dataset.contents.take f.offset ++ (buf.drop m.offset).take m.extent ++
              dataset.contents.drop (f.offset + f.extent) })
  else
    (-1, dataset)

/-- Modelled from the spec: the Attribute Writer `attach(dataset, name, type, value)` for a
scalar `int`, the sequence `H5Screate(H5S_SCALAR)`, `H5Acreate`, `H5Awrite` of the HDF5 library
(not part of the sources). It fails with `DuplicateNameError` when the dataset already has
an attribute of that name and otherwise adds the attribute, touching nothing else. -/
def attach (dataset : Dataset) (name : String) (value : Int) : Except Error Dataset :=
  if dataset.attributes.any (fun a => a.1 == name) then
    Except.error Error.DuplicateNameError
  else
    Except.ok { dataset with attributes := dataset.attributes ++ [(name, value)] }

/-- Modelled from the spec: reading an attribute back by name (the programs never read). -/
def readAttribute (dataset : Dataset) (name : String) : Option Int :=
  (dataset.attributes.find? (fun a => a.1 == name)).map (fun a => a.2)

/-- Modelled from the spec: reading back element `(r, c)` of a 2-D dataset under the
row-major interpretation of its flat contents (the programs never read). -/
def readElement (dataset : Dataset) (r c : Nat) : Option Int :=
  match dataset.dims with
  | [nr, nc] => if r < nr ∧ c < nc then dataset.contents.get? (r * nc + c) else none
  | _ => none

/-! ## Parallel exercise: the write (lines 35-59) -/

/-- The dataset every rank creates with identical arguments (lines 35-37). -/
def sharedDataset (ntasks : Nat) : Dataset :=
  H5Dcreate "ranks" (H5Screate_simple [dataspaceSize ntasks])

/-- Lines 35-59 as run by one rank on the shared dataset: select the hyperslab, assert
the status, create the memory space and write the local buffer. The result is `none` when
the assertion `status >= 0` fails (the process aborts); the status of `H5Dwrite` is ignored,
as in the source. -/
def rankWrite (ntasks rank : Nat) (dataset : Dataset) : Option Dataset :=
  let dataspace := H5Screate_simple [dataspaceSize ntasks]
  let r := H5Sselect_hyperslab dataspace (slabStart rank) (count rank)
  if r.1 < 0 then
    none
  else
    let memspace := H5Screate_simple [count rank]
    some (H5Dwrite dataset memspace r.2 (data rank)).2

/-- The whole run of `ntasks` processes: the ranks perform their write in the order
`order` on the dataset they created together. The regions are disjoint, so the order
is immaterial; it is kept arbitrary. -/
def collectiveRun (ntasks : Nat) (order : List Nat) : Option Dataset :=
  order.foldlM (fun ds rank => rankWrite ntasks rank ds) (sharedDataset ntasks)

/-! ## Matrix writer -/

/-- `const size_t rows = 4;` -/
def rows : Nat := 4

/-- `const size_t columns = 5;` -/
def columns : Nat := 5

/-- The buffer after `std::vector<int> matrix(rows * columns);` and
`for (int i = 0; i < rows*columns; i++) matrix[i] = i;`. -/
def matrix : List Int :=
  (List.range ((rows * columns) % SIZE_MOD)).foldl (fun m i => m.set i (i : Int))
    (List.replicate ((rows * columns) % SIZE_MOD) 0)

/-- `int dummyMetadata = 42;` -/
def dummyMetadata : Int := 42

/-- The dataset right after `H5Dwrite(datasetId, H5T_NATIVE_INT, H5S_ALL, H5S_ALL, H5P_DEFAULT,
matrix.data())` (lines 49-78); `H5S_ALL` stands for the whole dataspace of the dataset on
both sides. -/
def matrixWritten : Dataset :=
  let dataspaceId := H5Screate_simple [rows, columns]
  let datasetId := H5Dcreate "IntegerMatrix" dataspaceId
  (H5Dwrite datasetId dataspaceId dataspaceId matrix).2

/-- The dataset `IntegerMatrix` at the end of the program on rank 0 (lines 49-97): written,
then given the attribute; the status of the attribute calls is ignored, as in the source. -/
def matrixDataset : Dataset :=
  match attach matrixWritten "DummyMetadataInteger" dummyMetadata with
  | Except.ok d => d
  | Except.error _ => matrixWritten

/-! ## Handles: creation and release -/

/-- The handle variables of the two programs. -/
inductive Handle where
  | plist
  | file
  | dataspace
  | dataset
  | memspace
  | fileId
  | dataspaceId
  | datasetId
  | attributeSpaceId
  | attributeId
  deriving DecidableEq, Repr

/-- What a run does to handles, in program order. -/
inductive Event where
  | created (h : Handle)
  | closed (h : Handle)
  | aborted
  deriving DecidableEq, Repr

/-- Handle events of `main` of the parallel exercise (lines 19-66); `status` is what
`H5Sselect_hyperslab` returned. A failed `assert(status >= 0)` aborts the process
(the source does not define `NDEBUG`, so the assertion is active); this is the only
exit of either program before the end of `main`. -/
def parallelEvents (status : Int) : List Event :=
  [Event.created Handle.plist, Event.created Handle.file, Event.created Handle.dataspace,
    Event.created Handle.dataset] ++
  (if status ≥ 0 then
    [Event.created Handle.memspace,
      Event.closed Handle.memspace, Event.closed Handle.dataset, Event.closed Handle.dataspace,
      Event.closed Handle.file, Event.closed Handle.plist]
  else
    [Event.aborted])

/-- Handle events of `main` of the matrix writer (lines 15-105): only rank 0 does anything. -/
def matrixEvents (rank : Int) : List Event :=
  if rank = 0 then
    [Event.created Handle.fileId, Event.created Handle.dataspaceId,
      Event.created Handle.datasetId, Event.created Handle.attributeSpaceId,
      Event.created Handle.attributeId,
      Event.closed Handle.attributeId, Event.closed Handle.attributeSpaceId,
      Event.closed Handle.datasetId, Event.closed Handle.dataspaceId, Event.closed Handle.fileId]
  else
    []

/-- Handles created by a run, in order. -/
def createdHandles (es : List Event) : List Handle :=
  es.filterMap (fun e => match e with
    | Event.created h => some h
    | _ => none)

/-- Handles closed by a run, in order. -/
def closedHandles (es : List Event) : List Handle :=
  es.filterMap (fun e => match e with
    | Event.closed h => some h
    | _ => none)

/-! ## Auxiliary definitions of the proofs -/

/-- Triangular numbers, the exact value of the sum `1 + 2 + ... + n`. -/
def tri : Nat → Nat
  | 0 => 0
  | n + 1 => tri n + (n + 1)

/-! ## Arithmetic lemmas -/

theorem two_mul_tri (n : Nat) : 2 * tri n = n * (n + 1) := by
  induction n with
  | zero => simp [tri]
  | succ k ih => simp only [tri]; rw [Nat.mul_add, ih]; ring

theorem tri_eq_div (n : Nat) : tri n = n * (n + 1) / 2 := by
  have h := two_mul_tri n
  omega

theorem tri_mono {a b : Nat} (h : a ≤ b) : tri a ≤ tri b := by
  induction h with
  | refl => exact Nat.le_refl _
  | step _ ih => simp only [tri]; omega

theorem tri_succ_le {a b : Nat} (h : a < b) : tri a + (a + 1) ≤ tri b := by
  have := tri_mono (Nat.succ_le_of_lt h)
  simpa [tri] using this

theorem tri_lt_size {n : Nat} (h : n ≤ INT_MAX) : tri n < SIZE_MOD := by
  have h2 := two_mul_tri n
  unfold INT_MAX at h
  unfold SIZE_MOD
  have : n * (n + 1) ≤ 2147483647 * 2147483648 := Nat.mul_le_mul h (by omega)
  omega

theorem slabStart_succ (n : Nat) :
    slabStart (n + 1) = (slabStart n + (n + 1) % SIZE_MOD) % SIZE_MOD := by
  simp [slabStart, List.range_succ, List.foldl_append]

theorem dataspaceSize_eq_slabStart (n : Nat) : dataspaceSize n = slabStart n := rfl

theorem slabStart_eq_tri {n : Nat} (h : n ≤ INT_MAX) : slabStart n = tri n := by
  induction n with
  | zero => rfl
  | succ k ih =>
    have hk : k ≤ INT_MAX := by omega
    have hlt := tri_lt_size h
    rw [slabStart_succ, ih hk]
    simp only [tri] at hlt ⊢
    have h1 : k + 1 < SIZE_MOD := by unfold INT_MAX at h; unfold SIZE_MOD; omega
    rw [Nat.mod_eq_of_lt h1, Nat.mod_eq_of_lt hlt]

theorem dataspaceSize_eq_tri {n : Nat} (h : n ≤ INT_MAX) : dataspaceSize n = tri n :=
  slabStart_eq_tri h

theorem rankPlusOne_eq {rank : Nat} (h : rank < INT_MAX) : rankPlusOne rank = (rank : Int) + 1 := by
  unfold INT_MAX at h
  unfold rankPlusOne wrapInt32
  omega

theorem count_eq {rank : Nat} (h : rank < INT_MAX) : count rank = rank + 1 := by
  unfold count toSizeT
  rw [rankPlusOne_eq h]
  unfold INT_MAX at h
  omega

theorem data_length {rank : Nat} (h : rank < INT_MAX) : (data rank).length = rank + 1 := by
  unfold data
  rw [List.length_replicate]
  exact count_eq h

theorem shapeSize_singleton (n : Nat) : shapeSize [n] = n := by
  simp [shapeSize]

theorem H5Sselect_hyperslab_ok (space : Dataspace) (start count : Nat)
    (h : start + count ≤ shapeSize space.dims) :
    H5Sselect_hyperslab space start count =
      (0, { space with selection := { offset := start, extent := count } }) := by
  simp [H5Sselect_hyperslab, select, h]

theorem H5Sselect_hyperslab_fail (space : Dataspace) (start count : Nat)
    (h : shapeSize space.dims < start + count) :
    H5Sselect_hyperslab space start count = (-1, space) := by
  have h2 : ¬ start + count ≤ shapeSize space.dims := by omega
  simp [H5Sselect_hyperslab, select, h2]

theorem H5Dwrite_region (ds : Dataset) (n s k : Nat) (buf : List Int) (hb : buf.length = k)
    (h : s + k ≤ ds.contents.length) :
    (H5Dwrite ds (H5Screate_simple [k])
        { dims := [n], selection := { offset := s, extent := k } } buf).2 =
      { ds with contents := ds.contents.take s ++ buf ++ ds.contents.drop (s + k) } := by
  have hk : (buf.drop 0).take k = buf := by
    rw [List.drop_zero, ← hb, List.take_length]
  unfold H5Dwrite
  dsimp only [H5Screate_simple]
  rw [shapeSize_singleton, if_pos ⟨rfl, by omega, h⟩, hk]

theorem data_eq {rank : Nat} (h : rank < INT_MAX) :
    data rank = List.replicate (rank + 1) (rank : Int) := by
  have := count_eq h
  unfold count at this
  unfold data
  rw [this]

theorem rankWrite_eq {ntasks rank : Nat} (hint : ntasks ≤ INT_MAX) (hr : rank < ntasks)
    (ds : Dataset) (hlen : ds.contents.length = tri ntasks) :
    rankWrite ntasks rank ds =
      some { ds with contents := ds.contents.take (tri rank) ++
              List.replicate (rank + 1) (rank : Int) ++ ds.contents.drop (tri rank + (rank + 1)) } := by
  have hs : slabStart rank = tri rank := slabStart_eq_tri (by omega)
  have hc : count rank = rank + 1 := count_eq (by omega)
  have hd : dataspaceSize ntasks = tri ntasks := dataspaceSize_eq_tri hint
  have hle : tri rank + (rank + 1) ≤ tri ntasks := tri_succ_le hr
  unfold rankWrite
  dsimp only
  rw [hs, hc, hd, data_eq (by omega)]
  rw [H5Sselect_hyperslab_ok _ _ _ (by rw [H5Screate_simple, shapeSize_singleton]; exact hle)]
  dsimp only
  rw [if_neg (by decide)]
  have := H5Dwrite_region ds (tri ntasks) (tri rank) (rank + 1)
    (List.replicate (rank + 1) (rank : Int)) (List.length_replicate _ _) (by omega)
  rw [← this]
  rfl

theorem rankWrite_isSome {ntasks rank : Nat} (hint : ntasks ≤ INT_MAX) (hr : rank < ntasks)
    (ds : Dataset) : (rankWrite ntasks rank ds).isSome = true := by
  have hs : slabStart rank = tri rank := slabStart_eq_tri (by omega)
  have hc : count rank = rank + 1 := count_eq (by omega)
  have hd : dataspaceSize ntasks = tri ntasks := dataspaceSize_eq_tri hint
  have hle : tri rank + (rank + 1) ≤ tri ntasks := tri_succ_le hr
  unfold rankWrite
  dsimp only
  rw [hs, hc, hd]
  rw [H5Sselect_hyperslab_ok _ _ _ (by rw [H5Screate_simple, shapeSize_singleton]; exact hle)]
  dsimp only
  rw [if_neg (by decide)]
  rfl

theorem tri_eq_sum (n : Nat) : tri n = ∑ i in Finset.range n, (i + 1) := by
  induction n with
  | zero => rfl
  | succ k ih => rw [Finset.sum_range_succ, ← ih]; rfl

theorem exists_region (w x : Nat) (h : x < tri w) :
    ∃ r, r < w ∧ tri r ≤ x ∧ x < tri r + (r + 1) := by
  induction w with
  | zero => simp [tri] at h
  | succ k ih =>
    by_cases hx : x < tri k
    · obtain ⟨r, hr, h1, h2⟩ := ih hx
      exact ⟨r, by omega, h1, h2⟩
    · simp only [tri] at h
      exact ⟨k, by omega, by omega, h⟩

theorem region_unique {r1 r2 x : Nat} (a1 : tri r1 ≤ x) (b1 : x < tri r1 + (r1 + 1))
    (a2 : tri r2 ≤ x) (b2 : x < tri r2 + (r2 + 1)) : r1 = r2 := by
  rcases Nat.lt_trichotomy r1 r2 with h | h | h
  · have := tri_succ_le h; omega
  · exact h
  · have := tri_succ_le h; omega

theorem getElem?_splice (l b : List Int) (s x : Nat) (h : s + b.length ≤ l.length) :
    (l.take s ++ b ++ l.drop (s + b.length))[x]? =
      if x < s then l[x]? else if x < s + b.length then b[x - s]? else l[x]? := by
  have hts : (l.take s).length = s := by rw [List.length_take]; omega
  by_cases h1 : x < s
  · rw [if_pos h1, List.append_assoc, List.getElem?_append_left (by omega),
      List.getElem?_take_of_lt h1]
  · rw [if_neg h1, List.append_assoc, List.getElem?_append_right (by omega), hts]
    by_cases h2 : x < s + b.length
    · rw [if_pos h2, List.getElem?_append_left (by omega)]
    · rw [if_neg h2, List.getElem?_append_right (by omega), List.getElem?_drop]
      congr 1
      omega

theorem length_splice (l b : List Int) (s : Nat) (h : s + b.length ≤ l.length) :
    (l.take s ++ b ++ l.drop (s + b.length)).length = l.length := by
  simp only [List.length_append, List.length_take, List.length_drop]
  omega

/-- One write keeps the length of the dataset, stores the rank in its own region and
leaves every index outside that region as it was. -/
theorem rankWrite_spec {ws a : Nat} (hint : ws ≤ INT_MAX) (ha : a < ws) (ds : Dataset)
    (hlen : ds.contents.length = tri ws) :
    ∃ ds1, rankWrite ws a ds = some ds1 ∧ ds1.contents.length = tri ws ∧
      (∀ x, tri a ≤ x → x < tri a + (a + 1) → ds1.contents[x]? = some (a : Int)) ∧
      (∀ x, ¬ (tri a ≤ x ∧ x < tri a + (a + 1)) → ds1.contents[x]? = ds.contents[x]?) := by
  have hle : tri a + (a + 1) ≤ tri ws := tri_succ_le ha
  have hb : (List.replicate (a + 1) (a : Int)).length = a + 1 := List.length_replicate _ _
  have hfit : tri a + (List.replicate (a + 1) (a : Int)).length ≤ ds.contents.length := by
    rw [hb, hlen]; exact hle
  have hget := getElem?_splice ds.contents (List.replicate (a + 1) (a : Int)) (tri a)
  have hlength := length_splice ds.contents (List.replicate (a + 1) (a : Int)) (tri a) hfit
  rw [hb] at hget hlength
  refine ⟨_, rankWrite_eq hint ha ds hlen, ?_, ?_, ?_⟩
  · show (_ ++ _ ++ _ : List Int).length = _
    rw [hlength, hlen]
  · intro x h1 h2
    show (_ ++ _ ++ _ : List Int)[x]? = _
    rw [hget x (by rw [hlen]; exact hle), if_neg (by omega), if_pos h2]
    exact List.getElem?_replicate_of_lt (by omega)
  · intro x hx
    show (_ ++ _ ++ _ : List Int)[x]? = _
    rw [hget x (by rw [hlen]; exact hle)]
    by_cases h1 : x < tri a
    · rw [if_pos h1]
    · rw [if_neg h1, if_neg (by omega)]

/-- Invariant of the run: after the ranks of `order` have written, the region of each of
them (and of every rank that had written before) holds that rank. -/
theorem foldlM_rankWrite {ws : Nat} (hint : ws ≤ INT_MAX) :
    ∀ (order : List Nat) (ds : Dataset) (P : Nat → Prop),
      (∀ r, r ∈ order → r < ws) → ds.contents.length = tri ws →
      (∀ r, P r → ∀ x, tri r ≤ x → x < tri r + (r + 1) → ds.contents[x]? = some (r : Int)) →
      ∃ ds1, order.foldlM (fun d rank => rankWrite ws rank d) ds = some ds1 ∧
        ds1.contents.length = tri ws ∧
        (∀ r, (P r ∨ r ∈ order) → ∀ x, tri r ≤ x → x < tri r + (r + 1) →
          ds1.contents[x]? = some (r : Int)) := by
  intro order
  induction order with
  | nil =>
    intro ds P _ hlen hP
    refine ⟨ds, rfl, hlen, ?_⟩
    intro r hr x h1 h2
    rcases hr with hr | hr
    · exact hP r hr x h1 h2
    · cases hr
  | cons a rest ih =>
    intro ds P hall hlen hP
    have ha : a < ws := hall a (List.mem_cons_self a rest)
    obtain ⟨ds1, hw, hlen1, hown, hother⟩ := rankWrite_spec hint ha ds hlen
    have hP1 : ∀ r, (P r ∨ r = a) → ∀ x, tri r ≤ x → x < tri r + (r + 1) →
        ds1.contents[x]? = some (r : Int) := by
      intro r hr x h1 h2
      by_cases hin : tri a ≤ x ∧ x < tri a + (a + 1)
      · have : r = a := region_unique h1 h2 hin.1 hin.2
        rw [this]
        exact hown x hin.1 hin.2
      · rcases hr with hr | hr
        · rw [hother x hin]
          exact hP r hr x h1 h2
        · exact absurd ⟨hr ▸ h1, hr ▸ h2⟩ hin
    obtain ⟨ds2, hrun, hlen2, hall2⟩ := ih ds1 (fun r => P r ∨ r = a)
      (fun r hr => hall r (List.mem_cons_of_mem a hr)) hlen1 hP1
    refine ⟨ds2, ?_, hlen2, ?_⟩
    · rw [List.foldlM_cons, hw]
      exact hrun
    · intro r hr x h1 h2
      apply hall2 r _ x h1 h2
      rcases hr with hr | hr
      · exact Or.inl (Or.inl hr)
      · rcases List.mem_cons.mp hr with hr | hr
        · exact Or.inl (Or.inr hr)
        · exact Or.inr hr

/-- The rank-ordered concatenation of the local buffers, index by index. -/
theorem flatMap_data {n : Nat} (hint : n ≤ INT_MAX) :
    ((List.range n).flatMap data).length = tri n ∧
    ∀ r, r < n → ∀ x, tri r ≤ x → x < tri r + (r + 1) →
      ((List.range n).flatMap data)[x]? = some (r : Int) := by
  induction n with
  | zero => exact ⟨rfl, fun r hr => absurd hr (Nat.not_lt_zero r)⟩
  | succ k ih =>
    obtain ⟨hlen, hget⟩ := ih (by omega)
    have hk : data k = List.replicate (k + 1) (k : Int) := data_eq (by omega)
    have hsplit : (List.range (k + 1)).flatMap data =
        (List.range k).flatMap data ++ List.replicate (k + 1) (k : Int) := by
      rw [List.range_succ, List.flatMap_append, List.flatMap_singleton, hk]
    rw [hsplit]
    refine ⟨?_, ?_⟩
    · rw [List.length_append, hlen, List.length_replicate]
      rfl
    · intro r hr x h1 h2
      by_cases hrk : r < k
      · have := tri_succ_le hrk
        rw [List.getElem?_append_left (by omega)]
        exact hget r hrk x h1 h2
      · have hrk2 : r = k := by omega
        subst hrk2
        rw [List.getElem?_append_right (by omega), hlen]
        exact List.getElem?_replicate_of_lt (by omega)

theorem sharedDataset_length (n : Nat) : (sharedDataset n).contents.length = dataspaceSize n := by
  simp [sharedDataset, H5Dcreate, H5Screate_simple, shapeSize_singleton]

theorem attach_fresh (ds : Dataset) (name : String) (value : Int)
    (h : readAttribute ds name = none) :
    attach ds name value =
      Except.ok { ds with attributes := ds.attributes ++ [(name, value)] } := by
  have hnone : ds.attributes.find? (fun a => a.1 == name) = none := by
    simpa [readAttribute] using h
  have hany : ds.attributes.any (fun a => a.1 == name) = false := by
    rw [List.any_eq_false]
    intro a ha
    exact List.find?_eq_none.mp hnone a ha
  unfold attach
  rw [hany]
  rfl

theorem attach_ok (ds ds1 : Dataset) (name : String) (value : Int)
    (h : attach ds name value = Except.ok ds1) :
    readAttribute ds name = none ∧
      ds1 = { ds with attributes := ds.attributes ++ [(name, value)] } := by
  unfold attach at h
  by_cases hany : ds.attributes.any (fun a => a.1 == name) = true
  · rw [if_pos hany] at h
    cases h
  · rw [if_neg hany] at h
    have hfalse : ds.attributes.any (fun a => a.1 == name) = false :=
      Bool.eq_false_iff.mpr hany
    rw [List.any_eq_false] at hfalse
    refine ⟨?_, ?_⟩
    · unfold readAttribute
      rw [List.find?_eq_none.mpr hfalse]
      rfl
    · injection h with h
      exact h.symm

theorem readAttribute_appended (ds : Dataset) (name : String) (value : Int)
    (h : readAttribute ds name = none) :
    readAttribute { ds with attributes := ds.attributes ++ [(name, value)] } name
      = some value := by
  have hnone : ds.attributes.find? (fun a => a.1 == name) = none := by
    simpa [readAttribute] using h
  simp [readAttribute, List.find?_append, hnone]

/-! ## Claims on the layout arithmetic -/

/-- C1 (tiling invariant). For every world size that an `int` can hold and that is at least 1:
each rank selects `rank + 1` elements, `slabStart` and `dataspaceSize` are the sums of `i + 1`
below the rank and below the world size, the regions
`[slabStart r, slabStart r + count r)` of two different ranks share no index, every index
below `dataspaceSize` lies in the region of exactly one rank, and no region holds an index
at or beyond `dataspaceSize`. -/
theorem tiling_invariant (worldSize : Nat) (hpos : 1 ≤ worldSize) (hint : worldSize ≤ INT_MAX) :
    (∀ r, r < worldSize → count r = r + 1 ∧ slabStart r = ∑ i in Finset.range r, (i + 1)) ∧
    dataspaceSize worldSize = ∑ i in Finset.range worldSize, (i + 1) ∧
    (∀ r1 r2, r1 < worldSize → r2 < worldSize → r1 ≠ r2 → ∀ x,
      ¬ ((slabStart r1 ≤ x ∧ x < slabStart r1 + count r1) ∧
         (slabStart r2 ≤ x ∧ x < slabStart r2 + count r2))) ∧
    (∀ x, x < dataspaceSize worldSize →
      ∃! r, r < worldSize ∧ slabStart r ≤ x ∧ x < slabStart r + count r) ∧
    (∀ r, r < worldSize → ∀ x, slabStart r ≤ x → x < slabStart r + count r →
      x < dataspaceSize worldSize) := by
  have hs : ∀ r, r < worldSize → slabStart r = tri r := fun r hr =>
    slabStart_eq_tri (by omega)
  have hc : ∀ r, r < worldSize → count r = r + 1 := fun r hr => count_eq (by omega)
  have hd : dataspaceSize worldSize = tri worldSize := dataspaceSize_eq_tri hint
  refine ⟨?_, ?_, ?_, ?_, ?_⟩
  · intro r hr
    exact ⟨hc r hr, by rw [hs r hr, tri_eq_sum]⟩
  · rw [hd, tri_eq_sum]
  · intro r1 r2 h1 h2 hne x hx
    rw [hs r1 h1, hs r2 h2, hc r1 h1, hc r2 h2] at hx
    exact hne (region_unique hx.1.1 hx.1.2 hx.2.1 hx.2.2)
  · intro x hx
    rw [hd] at hx
    obtain ⟨r, hr, h1, h2⟩ := exists_region worldSize x hx
    refine ⟨r, ⟨hr, ?_, ?_⟩, ?_⟩
    · rw [hs r hr]; exact h1
    · rw [hs r hr, hc r hr]; exact h2
    · rintro q ⟨hq, hq1, hq2⟩
      rw [hs q hq] at hq1 hq2
      rw [hc q hq] at hq2
      exact region_unique hq1 hq2 h1 h2
  · intro r hr x h1 h2
    rw [hs r hr, hc r hr] at h2
    rw [hd]
    have := tri_succ_le hr
    omega

/-- Witness of C1 at world size 4: index 5 lies in the region of exactly one rank. -/
theorem tiling_invariant_witness :
    ∃! r, r < 4 ∧ slabStart r ≤ 5 ∧ 5 < slabStart r + count r :=
  (tiling_invariant 4 (by decide) (by decide)).2.2.2.1 5 (by decide)

/-- C3 (offset recurrence). Rank 0 starts at 0, and whenever `rank + 1` is still a rank of
a world that an `int` can hold, the region of `rank` ends where the region of `rank + 1`
starts. -/
theorem offset_recurrence :
    slabStart 0 = 0 ∧
    ∀ worldSize rank, worldSize ≤ INT_MAX → rank + 1 < worldSize →
      count rank = rank + 1 ∧ slabStart rank + count rank = slabStart (rank + 1) := by
  refine ⟨rfl, ?_⟩
  intro worldSize rank hint hr
  have h1 : slabStart rank = tri rank := slabStart_eq_tri (by omega)
  have h2 : slabStart (rank + 1) = tri (rank + 1) := slabStart_eq_tri (by omega)
  have h3 : count rank = rank + 1 := count_eq (by omega)
  rw [h1, h2, h3]
  exact ⟨rfl, rfl⟩

/-- Witness of C3: in a world of 4 ranks the region of rank 2 ends where rank 3 starts. -/
theorem offset_recurrence_witness :
    count 2 = 2 + 1 ∧ slabStart 2 + count 2 = slabStart (2 + 1) :=
  offset_recurrence.2 4 2 (by decide) (by decide)

/-- C4 (single worker). With one worker, rank 0 starts at 0, selects as many elements as
its local buffer holds (one), and the dataset has exactly that size. -/
theorem single_worker :
    slabStart 0 = 0 ∧ count 0 = (data 0).length ∧ count 0 = 0 + 1 ∧
    dataspaceSize 1 = count 0 := by
  decide

/-- C9 (bounds of the selection). For every world size that an `int` can hold and every rank
of it, the selected region ends inside the dataspace, it ends exactly at its end for the last
rank only, the extent of the memory space is the length of the local buffer, which is
`rank + 1`, and any selector that reports failure only for a region exceeding the declared
size returns a status that passes `assert(status >= 0)`; so does the selector of the model,
and the rank goes on to its write. -/
theorem selection_in_bounds (worldSize rank : Nat) (hpos : 1 ≤ worldSize)
    (hint : worldSize ≤ INT_MAX) (hr : rank < worldSize) :
    slabStart rank + count rank ≤ dataspaceSize worldSize ∧
    (slabStart rank + count rank = dataspaceSize worldSize ↔ rank = worldSize - 1) ∧
    count rank = (data rank).length ∧ (data rank).length = rank + 1 ∧
    (H5Screate_simple [count rank]).selection.extent = (data rank).length ∧
    (∀ selector : Nat → Nat → Nat → Int,
      (∀ size offset extent, selector size offset extent < 0 → size < offset + extent) →
      0 ≤ selector (dataspaceSize worldSize) (slabStart rank) (count rank)) ∧
    0 ≤ (H5Sselect_hyperslab (H5Screate_simple [dataspaceSize worldSize])
          (slabStart rank) (count rank)).1 ∧
    ∀ ds, (rankWrite worldSize rank ds).isSome = true := by
  have hs : slabStart rank = tri rank := slabStart_eq_tri (by omega)
  have hc : count rank = rank + 1 := count_eq (by omega)
  have hl : (data rank).length = rank + 1 := data_length (by omega)
  have hd : dataspaceSize worldSize = tri worldSize := dataspaceSize_eq_tri hint
  have hle : tri rank + (rank + 1) ≤ tri worldSize := tri_succ_le hr
  refine ⟨by omega, ?_, by omega, hl, ?_, ?_, ?_, ?_⟩
  · rw [hs, hc, hd]
    constructor
    · intro h
      by_contra hne
      have hlt : rank + 1 < worldSize := by omega
      have := tri_succ_le hlt
      simp only [tri] at this
      omega
    · intro h
      have hw : worldSize = rank + 1 := by omega
      rw [hw]
      rfl
  · show shapeSize [count rank] = _
    rw [shapeSize_singleton, hc, hl]
  · intro selector hsel2
    by_contra hneg
    have := hsel2 _ _ _ (Int.not_le.mp hneg)
    omega
  · rw [H5Sselect_hyperslab_ok _ _ _
      (by rw [H5Screate_simple, shapeSize_singleton, hs, hc, hd]; exact hle)]
  · intro ds
    exact rankWrite_isSome hint hr ds

/-- Witness of C9: rank 1 of 4. -/
theorem selection_in_bounds_witness :
    slabStart 1 + count 1 ≤ dataspaceSize 4 :=
  (selection_in_bounds 4 1 (by decide) (by decide) (by decide)).1

/-- C10 (closed form, no wraparound). For every number of tasks below `2^31` the 64-bit loop
for `dataspaceSize` never wraps (the accumulator plus the next term stays below `2^64` at
every iteration) and ends with `ntasks * (ntasks + 1) / 2`; for every rank below it the same
holds of the loop for `slabStart`, which ends with `rank * (rank + 1) / 2`, and the 32-bit
signed `rank + 1` does not overflow. -/
theorem closed_form_no_wrap (ntasks : Nat) (h : ntasks < 2 ^ 31) :
    dataspaceSize ntasks = ntasks * (ntasks + 1) / 2 ∧
    (∀ i, i < ntasks → dataspaceSize i + (i + 1) < 2 ^ 64) ∧
    ∀ rank, rank < ntasks →
      slabStart rank = rank * (rank + 1) / 2 ∧
      (∀ i, i < rank → slabStart i + (i + 1) < 2 ^ 64) ∧
      rankPlusOne rank = (rank : Int) + 1 ∧ (rank : Int) + 1 ≤ (INT_MAX : Int) ∧
      count rank = rank + 1 ∧ (data rank).length = rank + 1 := by
  have hint : ntasks ≤ INT_MAX := by unfold INT_MAX; omega
  have hstep : ∀ i, i < ntasks → slabStart i + (i + 1) < 2 ^ 64 := by
    intro i hi
    have h1 : slabStart i = tri i := slabStart_eq_tri (by omega)
    have h2 : tri (i + 1) < SIZE_MOD := tri_lt_size (by omega)
    simp only [tri, SIZE_MOD] at h2
    omega
  refine ⟨?_, hstep, ?_⟩
  · rw [dataspaceSize_eq_tri hint, tri_eq_div]
  · intro rank hr
    refine ⟨?_, fun i hi => hstep i (by omega), rankPlusOne_eq (by omega), ?_,
      count_eq (by omega), data_length (by omega)⟩
    · rw [slabStart_eq_tri (by omega), tri_eq_div]
    · unfold INT_MAX at hint ⊢
      omega

/-- Witness of C10: 4 tasks, rank 3. -/
theorem closed_form_no_wrap_witness :
    dataspaceSize 4 = 4 * (4 + 1) / 2 ∧ slabStart 3 = 3 * (3 + 1) / 2 :=
  ⟨(closed_form_no_wrap 4 (by decide)).1,
    ((closed_form_no_wrap 4 (by decide)).2.2 3 (by decide)).1⟩

/-! ## Claims on the written data -/

/-- C2 (round trip). For every world size that an `int` can hold and that is at least 1, and
every order in which the ranks perform their write, each rank holding `rank + 1` copies of
its rank: the run completes, and the dataset read back as a flat sequence has length
`dataspaceSize` and is the rank-ordered concatenation of the local buffers. For 4 ranks it
has length 10 and is `[0, 1,1, 2,2,2, 3,3,3,3]`. -/
theorem round_trip :
    (∀ worldSize order, 1 ≤ worldSize → worldSize ≤ INT_MAX →
      List.Perm order (List.range worldSize) →
      (∀ r, r < worldSize → data r = List.replicate (r + 1) (r : Int)) ∧
      ∃ ds, collectiveRun worldSize order = some ds ∧
        ds.contents.length = dataspaceSize worldSize ∧
        ds.contents = (List.range worldSize).flatMap data) ∧
    (∀ order, List.Perm order (List.range 4) →
      ∃ ds, collectiveRun 4 order = some ds ∧ ds.contents.length = 10 ∧
        ds.contents = [0, 1, 1, 2, 2, 2, 3, 3, 3, 3]) := by
  have main : ∀ worldSize order, worldSize ≤ INT_MAX →
      List.Perm order (List.range worldSize) →
      ∃ ds, collectiveRun worldSize order = some ds ∧
        ds.contents.length = dataspaceSize worldSize ∧
        ds.contents = (List.range worldSize).flatMap data := by
    intro worldSize order hint hperm
    have hd : dataspaceSize worldSize = tri worldSize := dataspaceSize_eq_tri hint
    have hmem : ∀ r, r ∈ order ↔ r < worldSize := fun r => by
      rw [hperm.mem_iff, List.mem_range]
    obtain ⟨ds, hrun, hlen, hown⟩ := foldlM_rankWrite hint order (sharedDataset worldSize)
      (fun _ => False) (fun r hr => (hmem r).mp hr)
      (by rw [sharedDataset_length, hd]) (fun r hr => absurd hr id)
    obtain ⟨tlen, tget⟩ := flatMap_data hint
    refine ⟨ds, hrun, by rw [hlen, hd], ?_⟩
    apply List.ext_getElem?
    intro x
    by_cases hx : x < tri worldSize
    · obtain ⟨r, hr, h1, h2⟩ := exists_region worldSize x hx
      rw [hown r (Or.inr ((hmem r).mpr hr)) x h1 h2, tget r hr x h1 h2]
    · rw [List.getElem?_eq_none (by omega), List.getElem?_eq_none (by omega)]
  refine ⟨?_, ?_⟩
  · intro worldSize order _ hint hperm
    exact ⟨fun r hr => data_eq (by omega), main worldSize order hint hperm⟩
  · intro order hperm
    obtain ⟨ds, hrun, hlen, hc⟩ := main 4 order (by decide) hperm
    refine ⟨ds, hrun, ?_, ?_⟩
    · rw [hlen]; decide
    · rw [hc]; decide

/-- Witness of C2: three ranks writing in the order 2, 0, 1. -/
theorem round_trip_witness :
    ∃ ds, collectiveRun 3 [2, 0, 1] = some ds ∧
      ds.contents.length = dataspaceSize 3 ∧
      ds.contents = (List.range 3).flatMap data :=
  (round_trip.1 3 [2, 0, 1] (by decide) (by decide) (by decide)).2

/-- C5 (out-of-bounds rejection). Selecting a region whose offset plus extent exceeds the
size of the declared shape yields no selection but `OutOfBoundsError`, and the status the
program tests is then negative; this is the case of offset 5, extent 3 against size 6. -/
theorem out_of_bounds_rejected :
    (∀ size offset extent, size < offset + extent →
      select size offset extent = Except.error Error.OutOfBoundsError ∧
      (H5Sselect_hyperslab (H5Screate_simple [size]) offset extent).1 < 0) ∧
    select 6 5 3 = Except.error Error.OutOfBoundsError := by
  refine ⟨?_, rfl⟩
  intro size offset extent h
  have h2 : ¬ offset + extent ≤ size := by omega
  refine ⟨?_, ?_⟩
  · unfold select
    rw [if_neg h2]
  · rw [H5Sselect_hyperslab_fail _ _ _ (by rw [H5Screate_simple, shapeSize_singleton]; exact h)]
    show (-1 : Int) < 0
    decide

/-- Witness of C5: offset 9, extent 2 against size 10. -/
theorem out_of_bounds_rejected_witness :
    select 10 9 2 = Except.error Error.OutOfBoundsError :=
  (out_of_bounds_rejected.1 10 9 2 (by decide)).1

/-- C6 (matrix case). The buffer of the matrix writer has `rows * columns = 20` entries with
`matrix[i] = i`, the dataset is declared 4 x 5 and holds the whole buffer, and the element
read back at row `r`, column `c` is `5 * r + c`. -/
theorem matrix_row_major :
    rows * columns = 20 ∧ matrix.length = 20 ∧
    (∀ i : Nat, i < 20 → matrix[i]? = some (i : Int)) ∧
    matrixDataset.dims = [4, 5] ∧ matrixDataset.contents = matrix ∧
    ∀ r : Nat, r < 4 → ∀ c : Nat, c < 5 →
      readElement matrixDataset r c = some (5 * (r : Int) + (c : Int)) := by
  decide

/-- Witness of C6: the element at row 2, column 3 is 13. -/
theorem matrix_row_major_witness : readElement matrixDataset 2 3 = some 13 :=
  matrix_row_major.2.2.2.2.2 2 (by decide) 3 (by decide)

/-- C7 (attribute attach and readback). Attaching the scalar integer attribute `meta` with
value 42 to a dataset succeeds when the dataset has no attribute of that name; whenever the
attach succeeds, reading `meta` back yields exactly 42 and the name, shape and array contents
of the dataset are unchanged. The matrix writer does this with the name
`DummyMetadataInteger`: its attribute reads back as 42 and the written matrix is untouched. -/
theorem attribute_readback :
    (∀ ds, readAttribute ds "meta" = none → ∃ ds1, attach ds "meta" 42 = Except.ok ds1) ∧
    (∀ ds ds1, attach ds "meta" 42 = Except.ok ds1 →
      readAttribute ds1 "meta" = some 42 ∧ ds1.contents = ds.contents ∧
      ds1.dims = ds.dims ∧ ds1.name = ds.name) ∧
    readAttribute matrixDataset "DummyMetadataInteger" = some dummyMetadata ∧
    dummyMetadata = 42 ∧ matrixDataset.contents = matrixWritten.contents := by
  refine ⟨?_, ?_, by decide, rfl, by decide⟩
  · intro ds h
    exact ⟨_, attach_fresh ds "meta" 42 h⟩
  · intro ds ds1 h
    obtain ⟨hfresh, heq⟩ := attach_ok ds ds1 "meta" 42 h
    subst heq
    exact ⟨readAttribute_appended ds "meta" 42 hfresh, rfl, rfl, rfl⟩

/-- Witness of C7: the attribute `meta` attached to the written matrix dataset. -/
theorem attribute_readback_witness :
    ∃ ds1, attach matrixWritten "meta" 42 = Except.ok ds1 ∧
      readAttribute ds1 "meta" = some 42 ∧ ds1.contents = matrixWritten.contents := by
  obtain ⟨ds1, h⟩ := attribute_readback.1 matrixWritten (by decide)
  exact ⟨ds1, h, (attribute_readback.2.1 matrixWritten ds1 h).1,
    (attribute_readback.2.1 matrixWritten ds1 h).2.1⟩

/-! ## Claims on the handles -/

/-- C8, as stated, fails: when the hyperslab selection reports failure the parallel writer
aborts having created four handles and closed none, so the closed handles are not the
reverse of the created ones. -/
theorem abort_leaves_handles_open :
    createdHandles (parallelEvents (-1)) =
      [Handle.plist, Handle.file, Handle.dataspace, Handle.dataset] ∧
    closedHandles (parallelEvents (-1)) = [] ∧
    closedHandles (parallelEvents (-1)) ≠ (createdHandles (parallelEvents (-1))).reverse := by
  decide

/-- C8, amended. When the parallel writer passes its assertion it creates plist, file,
dataspace, dataset, memspace and then closes memspace, dataset, dataspace, file, plist; the
matrix writer on rank 0 creates fileId, dataspaceId, datasetId, attributeSpaceId, attributeId
and then closes them in reverse; in both every created handle is closed exactly once, after
all creations, in exactly the reverse order. On another rank the matrix writer creates and
closes nothing, and when the assertion fails the parallel writer closes nothing. -/
theorem release_order :
    (∀ status : Int, 0 ≤ status →
      createdHandles (parallelEvents status) =
        [Handle.plist, Handle.file, Handle.dataspace, Handle.dataset, Handle.memspace] ∧
      closedHandles (parallelEvents status) =
        [Handle.memspace, Handle.dataset, Handle.dataspace, Handle.file, Handle.plist] ∧
      closedHandles (parallelEvents status) = (createdHandles (parallelEvents status)).reverse ∧
      (createdHandles (parallelEvents status)).Nodup ∧
      parallelEvents status = (createdHandles (parallelEvents status)).map Event.created ++
        (closedHandles (parallelEvents status)).map Event.closed) ∧
    (createdHandles (matrixEvents 0) =
        [Handle.fileId, Handle.dataspaceId, Handle.datasetId, Handle.attributeSpaceId,
          Handle.attributeId] ∧
      closedHandles (matrixEvents 0) = (createdHandles (matrixEvents 0)).reverse ∧
      (createdHandles (matrixEvents 0)).Nodup ∧
      matrixEvents 0 = (createdHandles (matrixEvents 0)).map Event.created ++
        (closedHandles (matrixEvents 0)).map Event.closed) ∧
    (∀ rank : Int, rank ≠ 0 → matrixEvents rank = []) ∧
    (∀ status : Int, status < 0 →
      closedHandles (parallelEvents status) = [] ∧
      createdHandles (parallelEvents status) =
        [Handle.plist, Handle.file, Handle.dataspace, Handle.dataset]) := by
  refine ⟨?_, by decide, ?_, ?_⟩
  · intro status h
    have hev : parallelEvents status = parallelEvents 0 := by
      unfold parallelEvents
      rw [if_pos (show status ≥ 0 from h), if_pos (by decide)]
    rw [hev]
    decide
  · intro rank h
    unfold matrixEvents
    rw [if_neg h]
  · intro status h
    have hev : parallelEvents status = parallelEvents (-1) := by
      unfold parallelEvents
      rw [if_neg (show ¬ status ≥ 0 by omega), if_neg (by decide)]
    rw [hev]
    decide

/-- Witness of the amended C8: a run whose selection status is 0. -/
theorem release_order_witness :
    closedHandles (parallelEvents 0) = (createdHandles (parallelEvents 0)).reverse :=
  (release_order.1 0 (by decide)).2.2.1

end Hdf5
